import Mathlib

/-!
Verification of the ImageResolution batch upscaler (Playwright/Gemini driver).

This file gives a shallow embedding of the parts of the repository that the
specification's claims are about:

* `src/src/file-manager.js` — `loadState`, `buildOutputPath`;
* `src/src/main.js` — `getRandomDelay` and the orchestrator loop in `run`;
* the handler module (`waitForAnyVisible`, `isVisible`, the per-item stage
  sequence driven by `run`).

External effects (the Playwright page, the file system, wall-clock time,
`Math.random`) are modelled as explicit oracles passed to the embedded
functions; control flow, state updates and emitted events follow the source.
-/

namespace ImageResolution

/-! ### Resume state store: `loadState` (src/src/file-manager.js, lines 22–37)

The JS function reads `processing-state.json`, parses it and extracts the
`processed` / `failed` fields, falling back to `[]` when a field is absent or
not an array.  The whole body sits in a `try`; the `catch` returns the empty
state only for `ENOENT` (file missing) and rethrows every other error — in
particular a `JSON.parse` `SyntaxError` and the `TypeError` raised by a
property access on a parsed `null`.

We model a JSON value, the possible outcomes of reading the state file from
disk, and the JS error kinds that can reach the `catch`. -/

/-- A parsed JSON value (the result of a successful `JSON.parse`). -/
inductive JsonVal : Type where
  | null : JsonVal
  | bool : Bool → JsonVal
  | num : Int → JsonVal
  | str : String → JsonVal
  | arr : List JsonVal → JsonVal
  | obj : List (String × JsonVal) → JsonVal

/-- What the state file looks like on disk, as observed through
`fs.readFile` + `JSON.parse`:
* `missing` — `readFile` fails with `ENOENT`;
* `unreadable` — `readFile` fails with some other error;
* `content none` — the file is read but `JSON.parse` throws (malformed);
* `content (some j)` — the file parses to the JSON value `j`. -/
inductive Disk : Type where
  | missing : Disk
  | unreadable : Disk
  | content : Option JsonVal → Disk

/-- The JS error kinds that can reach `loadState`'s `catch` block. -/
inductive JsErr : Type where
  | enoent : JsErr
  | otherIo : JsErr
  | parseError : JsErr
  | typeError : JsErr
deriving DecidableEq

/-- The state record as returned by `loadState`: the two field values,
verbatim.  (The orchestrator stores item identifiers, i.e. strings, in these
lists; `loadState` itself returns whatever arrays were on disk.) -/
structure LoadedState : Type where
  processed : List JsonVal
  failed : List JsonVal

/-- First binding of a key in a JS object (a JSON object has one binding per
key, so first-match lookup is exact). -/
def lookupField : List (String × JsonVal) → String → Option JsonVal
  | [], _ => none
  | (k, v) :: rest, key => if k = key then some v else lookupField rest key

/-- JS property access `parsed.key`:  on `null` it throws a `TypeError`; on an
object it yields the field (or `undefined`, here `none`); on any other value
(number, string, boolean, array) it yields `undefined`. -/
def getField : JsonVal → String → Except JsErr (Option JsonVal)
  | .null, _ => .error .typeError
  | .obj fields, key => .ok (lookupField fields key)
  | _, _ => .ok none

/-- `Array.isArray(x) ? x : []` applied to a possibly-undefined field. -/
def asArray : Option JsonVal → List JsonVal
  | some (.arr xs) => xs
  | _ => []

/-- The body of `loadState`'s `try` block: read, parse, extract fields. -/
def loadStateTry : Disk → Except JsErr LoadedState
  | .missing => .error .enoent
  | .unreadable => .error .otherIo
  | .content none => .error .parseError
  | .content (some parsed) => do
      let p ← getField parsed "processed"
      let f ← getField parsed "failed"
      .ok { processed := asArray p, failed := asArray f }

/-- `loadState` (file-manager.js:22–37): the `catch` block returns the empty
state for `ENOENT` and rethrows everything else. -/
def loadState (d : Disk) : Except JsErr LoadedState :=
  match loadStateTry d with
  | .ok s => .ok s
  | .error e => if e = .enoent then .ok { processed := [], failed := [] } else .error e

/-! ### `getRandomDelay` (src/src/main.js, lines 18–21)

```js
function getRandomDelay(minMs, maxMs) {
  if (minMs >= maxMs) return minMs;
  return Math.floor(minMs + Math.random() * (maxMs - minMs));
}
```

`Math.random()` is modelled as an arbitrary rational `r` with `0 ≤ r < 1`. -/

def getRandomDelay (minMs maxMs r : ℚ) : ℚ :=
  if minMs ≥ maxMs then minMs else ((⌊minMs + r * (maxMs - minMs)⌋ : ℤ) : ℚ)

/-! ### Capability probe: `isVisible` / `waitForAnyVisible` (gemini-handler)

```js
const DEFAULT_POLL_MS = 1000;
async function isVisible(locator) {
  try { return await locator.first().isVisible(); } catch (err) { return false; }
}
async function waitForAnyVisible(page, locatorFactories, timeoutMs) {
  const start = Date.now();
  while (Date.now() - start < timeoutMs) {
    for (const factory of locatorFactories) {
      const locator = factory();
      if (await isVisible(locator)) { return locator.first(); }
    }
    await delay(DEFAULT_POLL_MS);
  }
  throw new Error('Timeout waiting for expected UI element.');
}
```

Time is modelled synchronously: each polling pass is instantaneous and each
`delay(DEFAULT_POLL_MS)` advances elapsed wall-clock time by exactly
`DEFAULT_POLL_MS`.  A candidate probe (`locator.first().isVisible()`) either
reports visible, reports hidden, or faults; the surface's behaviour is an
oracle assigning a list of probe outcomes (one per candidate, in list order)
to each elapsed time. -/

def DEFAULT_POLL_MS : ℕ := 1000

/-- Outcome of one candidate probe: the underlying `isVisible()` call
resolves `true`, resolves `false`, or throws. -/
inductive ProbeRes : Type where
  | visible : ProbeRes
  | hidden : ProbeRes
  | fault : ProbeRes
deriving DecidableEq

/-- `isVisible`: a faulting probe is caught and reported as not visible. -/
def isVisible : ProbeRes → Bool
  | .visible => true
  | .hidden => false
  | .fault => false

/-- Index of the first candidate, in list order, whose probe reports
visible on one polling pass. -/
def firstVisibleIdx (pass : List ProbeRes) : Option ℕ :=
  pass.findIdx? (fun r => isVisible r)

/-- `waitForAnyVisible`.  `probes e` is the list of probe outcomes (one per
candidate, in candidate-list order) when a pass starts at elapsed time `e`.
Returns `.ok (i, e)` — the position of the winning candidate and the elapsed
time of the winning pass — or `.error e` — the timeout throw, at elapsed
time `e`. -/
def waitForAnyVisible (probes : ℕ → List ProbeRes) (timeoutMs : ℕ) (elapsed : ℕ) :
    Except ℕ (ℕ × ℕ) :=
  if elapsed < timeoutMs then
    match firstVisibleIdx (probes elapsed) with
    | some i => .ok (i, elapsed)
    | none => waitForAnyVisible probes timeoutMs (elapsed + DEFAULT_POLL_MS)
  else
    .error elapsed
termination_by timeoutMs - elapsed
decreasing_by simp [DEFAULT_POLL_MS]; omega

/-- Replace a faulting probe by one that merely reports hidden (used to state
that `waitForAnyVisible` cannot observe the difference: probe faults are
swallowed by `isVisible`, never propagated). -/
def squashFault : ProbeRes → ProbeRes
  | .fault => .hidden
  | r => r

/-! ### The orchestrator: `run` (src/src/main.js, lines 51–160)

The per-item pipeline is the `while (attempt < config.retries && !succeeded)`
loop; the batch loop is `for (const imagePath of limited)`.  The surface is
modelled by a fault oracle: for each item and each (1-indexed) attempt it
reports either `none` — every stage of that attempt succeeds — or `some s` —
the stage sequence faults at stage `s` (the stages before `s` completed).
`Math.random` for the inter-item delay is an oracle giving the sampled value
for each item and attempt.  Observable effects (session launch, the single
`ensureLoggedIn` call, stage execution, `saveState` flushes, log lines,
sleeps) are recorded in an event trace. -/

/-- The stage labels of one attempt, in the order `run` drives them
(the `currentStep` markers `ensure-ready` … `download`). -/
inductive Step : Type where
  | ensureReady : Step
  | selectFast : Step
  | upload : Step
  | prompt : Step
  | send : Step
  | processing : Step
  | download : Step
deriving DecidableEq

/-- The stage sequence of one attempt. -/
def steps : List Step :=
  [.ensureReady, .selectFast, .upload, .prompt, .send, .processing, .download]

/-- Position of a stage in the stage sequence. -/
def stepIdx : Step → ℕ
  | .ensureReady => 0
  | .selectFast => 1
  | .upload => 2
  | .prompt => 3
  | .send => 4
  | .processing => 5
  | .download => 6

/-- The working copy of the resume state held by the orchestrator
(item identifiers are path strings). -/
structure ResumeState : Type where
  processed : List String
  failed : List String
deriving DecidableEq

/-- Observable events of one run. -/
inductive Ev : Type where
  | logNothing : Ev
  | sessionOpen : Ev
  | authCheck : Ev
  | attemptStart : String → ℕ → Ev
  | stage : String → ℕ → Step → Ev
  | saveState : ResumeState → Ev
  | logSuccess : String → Ev
  | logError : String → ℕ → Step → Ev
  | debugCapture : String → ℕ → Ev
  | sleep : ℚ → Ev
  | summary : ℕ → ℕ → Ev
deriving DecidableEq

/-- The configuration fields of `buildConfig` that the orchestrator loop
reads (config parsing itself is an external collaborator). -/
structure Config : Type where
  retries : ℕ
  minDelayMs : ℚ
  maxDelayMs : ℚ
  limit : Option ℕ
  debug : Bool

/-- Result of (part of) a run: the events emitted, the resume state, and the
success/failure counters. -/
structure RunResult : Type where
  trace : List Ev
  state : ResumeState
  succ : ℕ
  fail : ℕ

/-- Stage events of one attempt: every stage is started in order until the
attempt faults (`some s` — stage `s` is the one that threw) or completes
(`none` — all seven stages ran). -/
def stageEvs (img : String) (a : ℕ) : Option Step → List Ev
  | none => steps.map (Ev.stage img a)
  | some s => (steps.take (stepIdx s + 1)).map (Ev.stage img a)

/-- The per-item retry loop (`while (attempt < config.retries && !succeeded)`).

`attempt` is the JS `attempt` counter (0 before the first iteration); `fuel`
is the number of loop iterations still permitted, i.e. `cfg.retries - attempt`
— the loop guard `attempt < config.retries` is exactly `fuel > 0`, and the
exhaustion test `attempt >= config.retries` (after the increment) is exactly
`fuel = 1`.  On a success the item is appended to `processed`, the state is
flushed, a `SUCCESS` line is logged and the randomized inter-item delay is
slept; the JS `succeeded` flag then terminates the loop.  On a fault an
`ERROR` line is logged (plus a debug capture when configured); the final
attempt appends the item to `failed` and flushes the state, earlier attempts
sleep the exponential backoff `30000 * 2 ^ (attempt - 1)` and iterate. -/
def itemLoop (cfg : Config) (fault : ℕ → Option Step) (rand : ℕ → ℚ) (img : String) :
    ℕ → ℕ → ResumeState → ℕ → ℕ → RunResult
  | _, 0, st, sc, fc => ⟨[], st, sc, fc⟩
  | attempt, fuel + 1, st, sc, fc =>
      let a := attempt + 1
      match fault a with
      | none =>
          let st' : ResumeState := ⟨st.processed ++ [img], st.failed⟩
          let d := getRandomDelay cfg.minDelayMs cfg.maxDelayMs (rand a)
          ⟨Ev.attemptStart img a :: stageEvs img a none ++
              [Ev.saveState st', Ev.logSuccess img, Ev.sleep d],
            st', sc + 1, fc⟩
      | some s =>
          let errEvs := Ev.attemptStart img a :: stageEvs img a (some s) ++
              Ev.logError img a s ::
                (if cfg.debug then [Ev.debugCapture img a] else [])
          if fuel = 0 then
            let st' : ResumeState := ⟨st.processed, st.failed ++ [img]⟩
            ⟨errEvs ++ [Ev.saveState st'], st', sc, fc + 1⟩
          else
            let rest := itemLoop cfg fault rand img a fuel st sc fc
            ⟨errEvs ++ Ev.sleep ((30000 : ℚ) * 2 ^ (a - 1)) :: rest.trace,
              rest.state, rest.succ, rest.fail⟩

/-- The batch loop `for (const imagePath of limited)`: each item runs the
retry loop from `attempt = 0` with the state and counters threaded through. -/
def runItems (cfg : Config) (fault : String → ℕ → Option Step)
    (rand : String → ℕ → ℚ) :
    List String → ResumeState → ℕ → ℕ → RunResult
  | [], st, sc, fc => ⟨[], st, sc, fc⟩
  | img :: rest, st, sc, fc =>
      let r := itemLoop cfg (fault img) (rand img) img 0 cfg.retries st sc fc
      let r' := runItems cfg fault rand rest r.state r.succ r.fail
      ⟨r.trace ++ r'.trace, r'.state, r'.succ, r'.fail⟩

/-- `pending = allImages.filter((file) => !state.processed.includes(file))`. -/
def pendingOf (st : ResumeState) (allImages : List String) : List String :=
  allImages.filter (fun file => !st.processed.contains file)

/-- `limited = config.limit ? pending.slice(0, config.limit) : pending`. -/
def limitedOf (cfg : Config) (pending : List String) : List String :=
  match cfg.limit with
  | some n => pending.take n
  | none => pending

/-- The orchestrator (`run`, main.js:51–160) from the point where the resume
state has been loaded: compute the pending and limited work lists; if empty,
report "No images to process." and return without launching the browser;
otherwise open the surface session, check authentication once, drive the
batch loop, and emit the summary line. -/
def run (cfg : Config) (fault : String → ℕ → Option Step) (rand : String → ℕ → ℚ)
    (allImages : List String) (st : ResumeState) : RunResult :=
  let pending := pendingOf st allImages
  let limited := limitedOf cfg pending
  if limited.isEmpty then
    ⟨[Ev.logNothing], st, 0, 0⟩
  else
    let r := runItems cfg fault rand limited st 0 0
    ⟨Ev.sessionOpen :: Ev.authCheck :: r.trace ++ [Ev.summary r.succ r.fail],
      r.state, r.succ, r.fail⟩

/-! ### Output naming: `buildOutputPath` (src/src/file-manager.js, lines 44–62)

```js
async function buildOutputPath(outputDir, inputPath) {
  const ext = path.extname(inputPath);
  const base = path.basename(inputPath, ext);
  let candidate = path.join(outputDir, `${base}_upscaled${ext}`);
  let counter = 2;
  while (true) {
    try {
      await fs.access(candidate);
      candidate = path.join(outputDir, `${base}_upscaled_${counter}${ext}`);
      counter += 1;
    } catch (err) {
      if (err.code === 'ENOENT') { return candidate; }
      throw err;
    }
  }
}
```

The output directory is modelled as the list of paths that currently exist
(`fs.access` succeeds exactly on members; other access errors are out of
scope).  `path.extname` / `path.basename` are external path-library calls, so
the embedding takes the split `base`/`ext` as inputs and models `path.join`
as `/`-separated concatenation.  The unbounded `while (true)` is embedded
with fuel; `dir.length + 1` probes always suffice because candidate names are
pairwise distinct (proved below via injectivity of decimal rendering). -/

/-- The `k`-th candidate path tried by the loop: `<base>_upscaled<ext>` for
`k = 0`, then `<base>_upscaled_<k+1><ext>` (the JS `counter` starts at 2). -/
def candidate (outputDir base ext : String) : ℕ → String
  | 0 => outputDir ++ "/" ++ base ++ "_upscaled" ++ ext
  | k + 1 => outputDir ++ "/" ++ base ++ "_upscaled_" ++ Nat.repr (k + 2) ++ ext

/-- The collision-probing loop, starting at candidate index `k` with `fuel`
probes remaining. -/
def buildOutputPathAux (dir : List String) (outputDir base ext : String) :
    ℕ → ℕ → Option String
  | _, 0 => none
  | k, fuel + 1 =>
      if candidate outputDir base ext k ∈ dir then
        buildOutputPathAux dir outputDir base ext (k + 1) fuel
      else
        some (candidate outputDir base ext k)

/-- `buildOutputPath`: first candidate, in probe order, that does not exist. -/
def buildOutputPath (dir : List String) (outputDir base ext : String) : Option String :=
  buildOutputPathAux dir outputDir base ext 0 (dir.length + 1)

/-- Big-endian decimal value of a digit-character list (used to invert
`Nat.repr`). -/
def decVal : List Char → ℕ
  | [] => 0
  | c :: cs => (c.toNat - 48) * 10 ^ cs.length + decVal cs

theorem digitChar_toNat (d : ℕ) (hd : d < 10) : (Nat.digitChar d).toNat = 48 + d := by
  interval_cases d <;> rfl

theorem decVal_toDigitsCore :
    ∀ (f n : ℕ) (l : List Char), n < f →
      decVal (Nat.toDigitsCore 10 f n l) = n * 10 ^ l.length + decVal l := by
  intro f
  induction f with
  | zero => intro n l h; omega
  | succ f ih =>
      intro n l h
      simp only [Nat.toDigitsCore]
      by_cases h10 : n / 10 = 0
      · rw [if_pos h10]
        have hn : n % 10 = n := by omega
        rw [hn]
        simp only [decVal]
        rw [digitChar_toNat n (by omega)]
        have h48 : 48 + n - 48 = n := by omega
        rw [h48]
      · rw [if_neg h10]
        have hlt : n / 10 < f := by
          have h1 : n / 10 < n := Nat.div_lt_self (by omega) (by norm_num)
          omega
        rw [ih (n / 10) (Nat.digitChar (n % 10) :: l) hlt]
        simp only [decVal, List.length_cons, digitChar_toNat (n % 10) (by omega)]
        have key : n / 10 * 10 ^ (l.length + 1) + (48 + n % 10 - 48) * 10 ^ l.length
            = n * 10 ^ l.length := by
          have h48 : 48 + n % 10 - 48 = n % 10 := by omega
          rw [h48, pow_succ]
          calc n / 10 * (10 ^ l.length * 10) + n % 10 * 10 ^ l.length
              = (10 * (n / 10) + n % 10) * 10 ^ l.length := by ring
            _ = n * 10 ^ l.length := by rw [Nat.div_add_mod]
        omega

theorem decVal_toDigits (n : ℕ) : decVal (Nat.toDigits 10 n) = n := by
  have h := decVal_toDigitsCore (n + 1) n [] (Nat.lt_succ_self n)
  simpa [Nat.toDigits, decVal] using h

theorem natRepr_injective {a b : ℕ} (h : Nat.repr a = Nat.repr b) : a = b := by
  have hd : Nat.toDigits 10 a = Nat.toDigits 10 b := by
    have hh := congrArg String.data h
    simpa [Nat.repr, List.asString] using hh
  have hv := congrArg decVal hd
  rwa [decVal_toDigits, decVal_toDigits] at hv

theorem toDigitsCore_length_ge :
    ∀ (f n : ℕ) (l : List Char), l.length ≤ (Nat.toDigitsCore 10 f n l).length := by
  intro f
  induction f with
  | zero => intro n l; simp [Nat.toDigitsCore]
  | succ f ih =>
      intro n l
      simp only [Nat.toDigitsCore]
      by_cases h10 : n / 10 = 0
      · rw [if_pos h10]; simp
      · rw [if_neg h10]
        calc l.length ≤ (Nat.digitChar (n % 10) :: l).length := by simp
          _ ≤ _ := ih (n / 10) (Nat.digitChar (n % 10) :: l)

theorem natRepr_length_pos (n : ℕ) : 1 ≤ (Nat.repr n).length := by
  have h : 1 ≤ (Nat.toDigits 10 n).length := by
    unfold Nat.toDigits
    simp only [Nat.toDigitsCore]
    by_cases h10 : n / 10 = 0
    · rw [if_pos h10]; simp
    · rw [if_neg h10]
      have hh := toDigitsCore_length_ge n (n / 10) [Nat.digitChar (n % 10)]
      simpa using hh
  simpa [Nat.repr, List.asString, String.length] using h

theorem candidate_injective (outputDir base ext : String) :
    Function.Injective (candidate outputDir base ext) := by
  intro j k h
  match j, k with
  | 0, 0 => rfl
  | 0, k + 1 =>
      exfalso
      have hl := congrArg String.length h
      simp only [candidate, String.length_append] at hl
      have h9 : ("_upscaled" : String).length = 9 := rfl
      have h10 : ("_upscaled_" : String).length = 10 := rfl
      have hr := natRepr_length_pos (k + 2)
      omega
  | j + 1, 0 =>
      exfalso
      have hl := congrArg String.length h
      simp only [candidate, String.length_append] at hl
      have h9 : ("_upscaled" : String).length = 9 := rfl
      have h10 : ("_upscaled_" : String).length = 10 := rfl
      have hr := natRepr_length_pos (j + 2)
      omega
  | j + 1, k + 1 =>
      have hd := congrArg String.data h
      simp only [candidate, String.data_append, List.append_assoc,
        List.append_cancel_left_eq, List.append_cancel_right_eq] at hd
      have : Nat.repr (j + 2) = Nat.repr (k + 2) := String.ext hd
      have := natRepr_injective this
      omega

theorem exists_candidate_not_mem (dir : List String) (outputDir base ext : String) :
    ∃ k, k ≤ dir.length ∧ candidate outputDir base ext k ∉ dir := by
  by_contra hcon
  push_neg at hcon
  have hsub : (Finset.range (dir.length + 1)).image (candidate outputDir base ext)
      ⊆ dir.toFinset := by
    intro x hx
    simp only [Finset.mem_image, Finset.mem_range] at hx
    obtain ⟨k, hk, rfl⟩ := hx
    exact List.mem_toFinset.mpr (hcon k (by omega))
  have hcard := Finset.card_le_card hsub
  rw [Finset.card_image_of_injective _ (candidate_injective outputDir base ext),
    Finset.card_range] at hcard
  have hfin := dir.toFinset_card_le
  omega

theorem buildOutputPathAux_isSome (dir : List String) (outputDir base ext : String) :
    ∀ (fuel k : ℕ),
      (∃ j, k ≤ j ∧ j < k + fuel ∧ candidate outputDir base ext j ∉ dir) →
      (buildOutputPathAux dir outputDir base ext k fuel).isSome := by
  intro fuel
  induction fuel with
  | zero =>
      intro k hex
      obtain ⟨j, h1, h2, _⟩ := hex
      omega
  | succ fuel ih =>
      intro k hex
      obtain ⟨j, hkj, hlt, hnm⟩ := hex
      simp only [buildOutputPathAux]
      by_cases hc : candidate outputDir base ext k ∈ dir
      · rw [if_pos hc]
        apply ih
        refine ⟨j, ?_, by omega, hnm⟩
        rcases Nat.eq_or_lt_of_le hkj with rfl | hlt2
        · exact absurd hc hnm
        · omega
      · rw [if_neg hc]; rfl

theorem buildOutputPathAux_spec (dir : List String) (outputDir base ext : String) :
    ∀ (fuel k : ℕ) (c : String),
      buildOutputPathAux dir outputDir base ext k fuel = some c →
      ∃ j, k ≤ j ∧ c = candidate outputDir base ext j ∧
        candidate outputDir base ext j ∉ dir ∧
        ∀ i, k ≤ i → i < j → candidate outputDir base ext i ∈ dir := by
  intro fuel
  induction fuel with
  | zero => intro k c h; simp [buildOutputPathAux] at h
  | succ fuel ih =>
      intro k c h
      simp only [buildOutputPathAux] at h
      by_cases hc : candidate outputDir base ext k ∈ dir
      · rw [if_pos hc] at h
        obtain ⟨j, hkj, hcj, hnm, hall⟩ := ih (k + 1) c h
        refine ⟨j, by omega, hcj, hnm, fun i hki hij => ?_⟩
        rcases Nat.eq_or_lt_of_le hki with rfl | h2
        · exact hc
        · exact hall i h2 hij
      · rw [if_neg hc] at h
        refine ⟨k, le_refl k, (Option.some.inj h).symm, hc, fun i h1 h2 => ?_⟩
        omega

/-! ## Claim C1 -/

/-- Claim C1 counterexample: a resume record that is present but malformed
(`JSON.parse` throws) does NOT degrade to the empty state — `loadState`'s
`catch` only swallows `ENOENT`, so the parse error is rethrown as a hard
failure. -/
theorem c1_counterexample :
    loadState (Disk.content none) = Except.error JsErr.parseError ∧
    loadState (Disk.content none) ≠ Except.ok ⟨[], []⟩ :=
  ⟨rfl, fun h => nomatch h⟩

/-- Claim C1 (amended): a MISSING resume record yields the empty state
`{processed: [], failed: []}` without failing, but a present-but-malformed
record does not degrade: its parse error is rethrown (aborting the run), as
is any non-`ENOENT` read error. -/
theorem c1_loadState_missing_vs_malformed :
    loadState Disk.missing = Except.ok ⟨[], []⟩ ∧
    loadState (Disk.content none) = Except.error JsErr.parseError ∧
    loadState Disk.unreadable = Except.error JsErr.otherIo :=
  ⟨rfl, rfl, rfl⟩

/-! ## Claim C10 -/

theorem asArray_eq_nil (v : Option JsonVal)
    (h : ∀ xs, v ≠ some (JsonVal.arr xs)) : asArray v = [] := by
  match v with
  | none => rfl
  | some JsonVal.null => rfl
  | some (JsonVal.bool _) => rfl
  | some (JsonVal.num _) => rfl
  | some (JsonVal.str _) => rfl
  | some (JsonVal.arr xs) => exact absurd rfl (h xs)
  | some (JsonVal.obj _) => rfl

/-- Claim C10: for every parsed record that is an object, `loadState`
succeeds with both fields present as arrays (Lean lists); a field that is
absent or not an array is replaced by the empty array, while a field that is
an array is kept verbatim. -/
theorem c10_loadState_field_defaults (fields : List (String × JsonVal)) :
    ∃ st : LoadedState,
      loadState (Disk.content (some (JsonVal.obj fields))) = Except.ok st ∧
      ((∀ xs, lookupField fields "processed" ≠ some (JsonVal.arr xs)) →
        st.processed = []) ∧
      (∀ xs, lookupField fields "processed" = some (JsonVal.arr xs) →
        st.processed = xs) ∧
      ((∀ xs, lookupField fields "failed" ≠ some (JsonVal.arr xs)) →
        st.failed = []) ∧
      (∀ xs, lookupField fields "failed" = some (JsonVal.arr xs) →
        st.failed = xs) := by
  refine ⟨⟨asArray (lookupField fields "processed"),
      asArray (lookupField fields "failed")⟩, rfl, ?_, ?_, ?_, ?_⟩
  · intro h; exact asArray_eq_nil _ h
  · intro xs h; simp only [h]; rfl
  · intro h; exact asArray_eq_nil _ h
  · intro xs h; simp only [h]; rfl

/-- Claim C10 witness: a record with `processed` absent and
`failed = ["a"]` loads as `{processed: [], failed: ["a"]}`. -/
theorem c10_witness :
    loadState (Disk.content (some (JsonVal.obj
        [("failed", JsonVal.arr [JsonVal.str "a"])])))
      = Except.ok ⟨[], [JsonVal.str "a"]⟩ := by
  obtain ⟨st, h1, h2, _, _, h5⟩ :=
    c10_loadState_field_defaults [("failed", JsonVal.arr [JsonVal.str "a"])]
  have hp : st.processed = [] := h2 (fun xs h => nomatch h)
  have hf : st.failed = [JsonVal.str "a"] := h5 [JsonVal.str "a"] rfl
  rw [h1]
  cases st
  simp only at hp hf
  rw [hp, hf]

/-! ## Claim C9 -/

/-- Claim C9 counterexample: with `minDelay = 0`, `maxDelay = 10`, no random
draw in `[0, 1)` makes `getRandomDelay` return the upper endpoint `10`, so
not every integer of the closed interval `[minDelay, maxDelay]` is
attainable — the draw is from `[minDelay, maxDelay)`. -/
theorem c9_counterexample :
    ¬ ∃ r : ℚ, 0 ≤ r ∧ r < 1 ∧ getRandomDelay 0 10 r = 10 := by
  rintro ⟨r, hr0, hr1, heq⟩
  unfold getRandomDelay at heq
  rw [if_neg (by norm_num)] at heq
  have h1 : (⌊(0 : ℚ) + r * (10 - 0)⌋ : ℤ) = 10 := by exact_mod_cast heq
  have h2 : ((10 : ℤ) : ℚ) ≤ (0 : ℚ) + r * (10 - 0) := Int.le_floor.mp (le_of_eq h1.symm)
  have h3 : (10 : ℚ) ≤ 10 * r := by push_cast at h2; linarith
  linarith

/-- Claim C9 (amended): for integer bounds with `minDelay < maxDelay`, every
draw `r ∈ [0,1)` yields a delay `d` with `minDelay ≤ d ≤ maxDelay - 1` (the
value `maxDelay` itself is never returned), and every integer in
`[minDelay, maxDelay - 1]` is attainable by some draw; when
`minDelay ≥ maxDelay` the function returns `minDelay` exactly. -/
theorem c9_getRandomDelay_range (mn mx : ℤ) (hlt : mn < mx) :
    (∀ r : ℚ, 0 ≤ r → r < 1 →
      (mn : ℚ) ≤ getRandomDelay (mn : ℚ) (mx : ℚ) r ∧
      getRandomDelay (mn : ℚ) (mx : ℚ) r ≤ (mx : ℚ) - 1) ∧
    (∀ d : ℤ, mn ≤ d → d ≤ mx - 1 →
      ∃ r : ℚ, 0 ≤ r ∧ r < 1 ∧ getRandomDelay (mn : ℚ) (mx : ℚ) r = (d : ℚ)) ∧
    (∀ a b r : ℚ, a ≥ b → getRandomDelay a b r = a) := by
  have hxq : (mn : ℚ) < (mx : ℚ) := by exact_mod_cast hlt
  refine ⟨?_, ?_, ?_⟩
  · intro r hr0 hr1
    unfold getRandomDelay
    rw [if_neg (not_le.mpr hxq)]
    constructor
    · have hfl : mn ≤ ⌊(mn : ℚ) + r * ((mx : ℚ) - (mn : ℚ))⌋ := by
        apply Int.le_floor.mpr
        have : 0 ≤ r * ((mx : ℚ) - (mn : ℚ)) := by
          apply mul_nonneg hr0; linarith
        linarith
      exact_mod_cast hfl
    · have hfl : ⌊(mn : ℚ) + r * ((mx : ℚ) - (mn : ℚ))⌋ ≤ mx - 1 := by
        have hlt2 : ⌊(mn : ℚ) + r * ((mx : ℚ) - (mn : ℚ))⌋ < mx := by
          apply Int.floor_lt.mpr
          have : r * ((mx : ℚ) - (mn : ℚ)) < (mx : ℚ) - (mn : ℚ) := by
            apply mul_lt_of_lt_one_left _ hr1
            linarith
          linarith
        omega
      exact_mod_cast hfl
  · intro d hd1 hd2
    refine ⟨((d : ℚ) - (mn : ℚ)) / ((mx : ℚ) - (mn : ℚ)), ?_, ?_, ?_⟩
    · apply div_nonneg
      · have : (mn : ℚ) ≤ (d : ℚ) := by exact_mod_cast hd1
        linarith
      · linarith
    · rw [div_lt_one (by linarith)]
      have : (d : ℚ) < (mx : ℚ) := by
        have hdm : d < mx := by omega
        exact_mod_cast hdm
      linarith
    · unfold getRandomDelay
      rw [if_neg (not_le.mpr hxq)]
      have hne : (mx : ℚ) - (mn : ℚ) ≠ 0 := by linarith
      rw [div_mul_cancel₀ _ hne]
      have : (mn : ℚ) + ((d : ℚ) - (mn : ℚ)) = (d : ℚ) := by ring
      rw [this, Int.floor_intCast]
  · intro a b r hab
    unfold getRandomDelay
    rw [if_pos hab]

/-- Claim C9 witness: at `minDelay = 0`, `maxDelay = 10`, the draw `1/2`
yields a delay within `[0, 9]`, and the integer `9` is attainable. -/
theorem c9_witness :
    ((0 : ℤ) : ℚ) ≤ getRandomDelay ((0 : ℤ) : ℚ) ((10 : ℤ) : ℚ) (1 / 2) ∧
    getRandomDelay ((0 : ℤ) : ℚ) ((10 : ℤ) : ℚ) (1 / 2) ≤ ((10 : ℤ) : ℚ) - 1 :=
  (c9_getRandomDelay_range 0 10 (by norm_num)).1 (1 / 2) (by norm_num) (by norm_num)

/-! ## Claim C3 -/

/-- Claim C3: for every output-directory contents and every input basename
and extension, `buildOutputPath` returns the first candidate, in the order
`<base>_upscaled<ext>`, `<base>_upscaled_2<ext>`, `<base>_upscaled_3<ext>`,
…, that does not already exist; in particular the returned path never names
an existing file, and when `<base>_upscaled<ext>` does not exist it is
returned directly.  (Totality — the loop always terminates with an answer —
holds because candidate names are pairwise distinct, so `|dir| + 1` probes
find a fresh name.) -/
theorem c3_buildOutputPath_first_fresh (dir : List String)
    (outputDir base ext : String) :
    ∃ k, buildOutputPath dir outputDir base ext
          = some (candidate outputDir base ext k) ∧
      candidate outputDir base ext k ∉ dir ∧
      (∀ i, i < k → candidate outputDir base ext i ∈ dir) ∧
      (candidate outputDir base ext 0 ∉ dir →
        buildOutputPath dir outputDir base ext
          = some (candidate outputDir base ext 0)) := by
  have hsome : (buildOutputPathAux dir outputDir base ext 0 (dir.length + 1)).isSome := by
    apply buildOutputPathAux_isSome
    obtain ⟨k, hk, hnm⟩ := exists_candidate_not_mem dir outputDir base ext
    exact ⟨k, Nat.zero_le k, by omega, hnm⟩
  obtain ⟨c, hc⟩ := Option.isSome_iff_exists.mp hsome
  have hc' : buildOutputPath dir outputDir base ext = some c := hc
  obtain ⟨j, _, rfl, hnm, hall⟩ :=
    buildOutputPathAux_spec dir outputDir base ext (dir.length + 1) 0 c hc
  refine ⟨j, hc', hnm, fun i hij => hall i (Nat.zero_le i) hij, fun h0 => ?_⟩
  match j, hc', hnm, hall with
  | 0, hc', hnm, hall => exact hc'
  | j + 1, hc', hnm, hall => exact absurd (hall 0 (Nat.zero_le 0) (by omega)) h0

/-- Claim C3 witness: in a directory already holding `a_upscaled.jpg` (the
spec's repeated-basename scenario), the next assignment for `a.jpg` is
`a_upscaled_2.jpg`; the fresh-name and first-candidate properties hold
there. -/
theorem c3_witness :
    buildOutputPath ["out/a_upscaled.jpg"] "out" "a" ".jpg"
        = some "out/a_upscaled_2.jpg" ∧
    "out/a_upscaled_2.jpg" ∉ ["out/a_upscaled.jpg"] := by
  obtain ⟨k, h1, h2, h3, _⟩ :=
    c3_buildOutputPath_first_fresh ["out/a_upscaled.jpg"] "out" "a" ".jpg"
  have hk : k = 1 := by
    match k, h1, h2, h3 with
    | 0, h1, h2, h3 => exact absurd (by decide) h2
    | 1, h1, h2, h3 => rfl
    | k + 2, h1, h2, h3 =>
        have := h3 1 (by omega)
        exact absurd this (by decide)
  subst hk
  have hcand : candidate "out" "a" ".jpg" 1 = "out/a_upscaled_2.jpg" := by decide
  rw [hcand] at h1 h2
  exact ⟨h1, h2⟩

/-! ## Claim C7 -/

/-- Claim C7: when the filtered (and limit-truncated) pending list is empty,
`run` prints "No images to process." and returns immediately with the state
untouched and zero counters — in particular the trace contains zero
session-open events (the browser is never launched). -/
theorem c7_empty_no_session (cfg : Config) (fault : String → ℕ → Option Step)
    (rand : String → ℕ → ℚ) (allImages : List String) (st : ResumeState)
    (h : limitedOf cfg (pendingOf st allImages) = []) :
    run cfg fault rand allImages st = ⟨[Ev.logNothing], st, 0, 0⟩ ∧
    (run cfg fault rand allImages st).trace.count Ev.sessionOpen = 0 := by
  have he : (limitedOf cfg (pendingOf st allImages)).isEmpty = true := by
    rw [h]; rfl
  have h1 : run cfg fault rand allImages st = ⟨[Ev.logNothing], st, 0, 0⟩ := by
    unfold run
    rw [if_pos he]
  exact ⟨h1, by rw [h1]; rfl⟩

/-- Claim C7 witness: an empty input directory yields the nothing-to-do
result with no session opened. -/
theorem c7_witness :
    run ⟨3, 10000, 15000, none, false⟩ (fun _ _ => none) (fun _ _ => 0) [] ⟨[], []⟩
      = ⟨[Ev.logNothing], ⟨[], []⟩, 0, 0⟩ :=
  (c7_empty_no_session ⟨3, 10000, 15000, none, false⟩ (fun _ _ => none)
    (fun _ _ => 0) [] ⟨[], []⟩ rfl).1

/-! ## Claim C6 -/

theorem itemLoop_attemptStart_mem (cfg : Config) (fault : ℕ → Option Step)
    (rand : ℕ → ℚ) (img : String) (st : ResumeState) (sc fc : ℕ)
    (h : 1 ≤ cfg.retries) :
    Ev.attemptStart img 1
      ∈ (itemLoop cfg fault rand img 0 cfg.retries st sc fc).trace := by
  obtain ⟨fuel, hfuel⟩ : ∃ fuel, cfg.retries = fuel + 1 := ⟨cfg.retries - 1, by omega⟩
  rw [hfuel]
  cases hf : fault 1 with
  | none => simp [itemLoop, hf]
  | some s =>
      by_cases hfu : fuel = 0 <;> simp [itemLoop, hf, hfu]

theorem runItems_attemptStart_mem (cfg : Config) (F : String → ℕ → Option Step)
    (R : String → ℕ → ℚ) (h : 1 ≤ cfg.retries) :
    ∀ (imgs : List String) (st : ResumeState) (sc fc : ℕ) (f : String),
      f ∈ imgs →
      Ev.attemptStart f 1 ∈ (runItems cfg F R imgs st sc fc).trace := by
  intro imgs
  induction imgs with
  | nil => intro st sc fc f hf; exact absurd hf (List.not_mem_nil f)
  | cons img rest ih =>
      intro st sc fc f hf
      simp only [runItems]
      rcases List.mem_cons.mp hf with rfl | hf2
      · exact List.mem_append.mpr
          (Or.inl (itemLoop_attemptStart_mem cfg (F f) (R f) f st sc fc h))
      · exact List.mem_append.mpr (Or.inr (ih _ _ _ f hf2))

/-- Claim C6: the pending work list contains exactly the enumerated items
whose identifier is not in `ResumeState.processed` (membership in `failed`
plays no role in the filter — the filter reads only `processed`); the
configured limit truncates by `take`; and every item on the resulting list —
including identifiers sitting in `failed` from an earlier run — is attempted
afresh (its attempt 1 is started) whenever at least one retry is allowed. -/
theorem c6_pending_work_list (st : ResumeState) (allImages : List String) :
    (∀ f, f ∈ pendingOf st allImages ↔ f ∈ allImages ∧ f ∉ st.processed) ∧
    (∀ (p fl fl' : List String) (imgs : List String),
      pendingOf ⟨p, fl⟩ imgs = pendingOf ⟨p, fl'⟩ imgs) ∧
    (∀ (cfg : Config) (n : ℕ) (pend : List String),
      cfg.limit = some n → limitedOf cfg pend = pend.take n) ∧
    (∀ (cfg : Config) (pend : List String),
      cfg.limit = none → limitedOf cfg pend = pend) ∧
    (∀ (cfg : Config) (fault : String → ℕ → Option Step)
        (rand : String → ℕ → ℚ) (f : String),
      1 ≤ cfg.retries → f ∈ limitedOf cfg (pendingOf st allImages) →
      Ev.attemptStart f 1 ∈ (run cfg fault rand allImages st).trace) := by
  refine ⟨?_, ?_, ?_, ?_, ?_⟩
  · intro f
    simp [pendingOf, List.mem_filter]
  · intro p fl fl' imgs; rfl
  · intro cfg n pend hl; unfold limitedOf; rw [hl]
  · intro cfg pend hl; unfold limitedOf; rw [hl]
  · intro cfg fault rand f hret hf
    have hne : (limitedOf cfg (pendingOf st allImages)).isEmpty = false := by
      cases hl : limitedOf cfg (pendingOf st allImages) with
      | nil => rw [hl] at hf; exact absurd hf (List.not_mem_nil f)
      | cons a l => rfl
    unfold run
    rw [if_neg (by rw [hne]; exact Bool.false_ne_true)]
    exact List.mem_cons_of_mem _ (List.mem_cons_of_mem _ (List.mem_append_left _
      (runItems_attemptStart_mem cfg fault rand hret _ st 0 0 f hf)))

/-- Claim C6 witness: the spec's resume scenario — `a.jpg` already processed,
`b.jpg` in `failed` from an earlier run — still attempts `b.jpg` afresh. -/
theorem c6_witness :
    Ev.attemptStart "b.jpg" 1 ∈
      (run ⟨1, 0, 0, none, false⟩ (fun _ _ => none) (fun _ _ => 0)
        ["a.jpg", "b.jpg"] ⟨["a.jpg"], ["b.jpg"]⟩).trace :=
  (c6_pending_work_list ⟨["a.jpg"], ["b.jpg"]⟩ ["a.jpg", "b.jpg"]).2.2.2.2
    ⟨1, 0, 0, none, false⟩ (fun _ _ => none) (fun _ _ => 0) "b.jpg"
    (by decide) (by decide)

/-! ## Claim C2 -/

theorem itemLoop_state_cases (cfg : Config) (fault : ℕ → Option Step)
    (rand : ℕ → ℚ) (img : String) :
    ∀ (fuel attempt : ℕ) (st : ResumeState) (sc fc : ℕ),
      (itemLoop cfg fault rand img attempt fuel st sc fc).state = st ∨
      (itemLoop cfg fault rand img attempt fuel st sc fc).state
        = ⟨st.processed ++ [img], st.failed⟩ ∨
      (itemLoop cfg fault rand img attempt fuel st sc fc).state
        = ⟨st.processed, st.failed ++ [img]⟩ := by
  intro fuel
  induction fuel with
  | zero => intro attempt st sc fc; exact Or.inl rfl
  | succ fuel ih =>
      intro attempt st sc fc
      cases hf : fault (attempt + 1) with
      | none => exact Or.inr (Or.inl (by simp [itemLoop, hf]))
      | some s =>
          by_cases hfu : fuel = 0
          · subst hfu
            exact Or.inr (Or.inr (by simp [itemLoop, hf]))
          · have hrec := ih (attempt + 1) st sc fc
            simpa [itemLoop, hf, hfu] using hrec

theorem runItems_state_mono (cfg : Config) (F : String → ℕ → Option Step)
    (R : String → ℕ → ℚ) :
    ∀ (imgs : List String) (st : ResumeState) (sc fc : ℕ),
      st.processed <+: (runItems cfg F R imgs st sc fc).state.processed ∧
      st.failed <+: (runItems cfg F R imgs st sc fc).state.failed := by
  intro imgs
  induction imgs with
  | nil => intro st sc fc; exact ⟨List.prefix_rfl, List.prefix_rfl⟩
  | cons img rest ih =>
      intro st sc fc
      simp only [runItems]
      obtain ⟨h1, h2⟩ := ih (itemLoop cfg (F img) (R img) img 0 cfg.retries st sc fc).state
        (itemLoop cfg (F img) (R img) img 0 cfg.retries st sc fc).succ
        (itemLoop cfg (F img) (R img) img 0 cfg.retries st sc fc).fail
      rcases itemLoop_state_cases cfg (F img) (R img) img cfg.retries 0 st sc fc
        with h | h | h <;> rw [h] at h1 h2 ⊢
      · exact ⟨h1, h2⟩
      · exact ⟨(List.prefix_append st.processed [img]).trans h1, h2⟩
      · exact ⟨h1, (List.prefix_append st.failed [img]).trans h2⟩

theorem count_singleton_ite (img f : String) :
    ([img] : List String).count f = (if img = f then 1 else 0) := by
  by_cases himg : img = f
  · subst himg; simp
  · rw [if_neg himg]
    exact List.count_eq_zero.mpr (by simp [Ne.symm himg])

theorem itemLoop_count_le (cfg : Config) (fault : ℕ → Option Step)
    (rand : ℕ → ℚ) (img f : String) (fuel attempt : ℕ) (st : ResumeState)
    (sc fc : ℕ) :
    (itemLoop cfg fault rand img attempt fuel st sc fc).state.processed.count f
      + (itemLoop cfg fault rand img attempt fuel st sc fc).state.failed.count f
    ≤ st.processed.count f + st.failed.count f + (if img = f then 1 else 0) := by
  rcases itemLoop_state_cases cfg fault rand img fuel attempt st sc fc
    with h | h | h <;> rw [h]
  · split <;> omega
  · simp only [List.count_append, count_singleton_ite]; split <;> omega
  · simp only [List.count_append, count_singleton_ite]; split <;> omega

theorem runItems_count_le (cfg : Config) (F : String → ℕ → Option Step)
    (R : String → ℕ → ℚ) (f : String) :
    ∀ (imgs : List String) (st : ResumeState) (sc fc : ℕ),
      (runItems cfg F R imgs st sc fc).state.processed.count f
        + (runItems cfg F R imgs st sc fc).state.failed.count f
      ≤ st.processed.count f + st.failed.count f + imgs.count f := by
  intro imgs
  induction imgs with
  | nil => intro st sc fc; simp [runItems]
  | cons img rest ih =>
      intro st sc fc
      simp only [runItems]
      have h1 := ih (itemLoop cfg (F img) (R img) img 0 cfg.retries st sc fc).state
        (itemLoop cfg (F img) (R img) img 0 cfg.retries st sc fc).succ
        (itemLoop cfg (F img) (R img) img 0 cfg.retries st sc fc).fail
      have h2 := itemLoop_count_le cfg (F img) (R img) img f cfg.retries 0 st sc fc
      have h3 : (img :: rest).count f = rest.count f + (if img = f then 1 else 0) := by
        by_cases himg : img = f
        · subst himg; simp [List.count_cons]
        · simp [List.count_cons, himg, Ne.symm himg]
      rw [h3]
      by_cases himg : img = f
      · rw [if_pos himg] at h2 ⊢; omega
      · rw [if_neg himg] at h2 ⊢; omega

theorem limitedOf_sublist (cfg : Config) (l : List String) :
    (limitedOf cfg l).Sublist l := by
  unfold limitedOf
  cases cfg.limit with
  | none => exact List.Sublist.refl l
  | some n => exact List.take_sublist n l

/-- Claim C2 (amended): identifiers are never removed — across any run, the
prior `processed` and `failed` lists are prefixes of the new ones — and
within a single run an identifier that starts in neither set ends in at most
one of the two sets.  (Across separate runs the two sets need NOT stay
disjoint: an identifier that exhausted its retries in an earlier run stays
in `failed` forever, is retried on the next run, and on success is also
appended to `processed`; see the counterexample.) -/
theorem c2_state_monotone_single_run_disjoint (cfg : Config)
    (fault : String → ℕ → Option Step) (rand : String → ℕ → ℚ)
    (allImages : List String) (st : ResumeState) :
    (st.processed <+: (run cfg fault rand allImages st).state.processed ∧
     st.failed <+: (run cfg fault rand allImages st).state.failed) ∧
    (∀ f, allImages.Nodup → f ∉ st.processed → f ∉ st.failed →
      ¬(f ∈ (run cfg fault rand allImages st).state.processed ∧
        f ∈ (run cfg fault rand allImages st).state.failed)) := by
  by_cases he : (limitedOf cfg (pendingOf st allImages)).isEmpty = true
  · have hrun : run cfg fault rand allImages st = ⟨[Ev.logNothing], st, 0, 0⟩ := by
      unfold run; rw [if_pos he]
    rw [hrun]
    exact ⟨⟨List.prefix_rfl, List.prefix_rfl⟩, fun f _ hp _ h => hp h.1⟩
  · have hrun : (run cfg fault rand allImages st).state
        = (runItems cfg fault rand (limitedOf cfg (pendingOf st allImages)) st 0 0).state := by
      unfold run; rw [if_neg he]
    rw [hrun]
    refine ⟨runItems_state_mono cfg fault rand _ st 0 0, ?_⟩
    rintro f hnd hp hfl ⟨hmp, hmf⟩
    have hcount := runItems_count_le cfg fault rand f
      (limitedOf cfg (pendingOf st allImages)) st 0 0
    have hc1 : st.processed.count f = 0 := List.count_eq_zero.mpr hp
    have hc2 : st.failed.count f = 0 := List.count_eq_zero.mpr hfl
    have hsub : (limitedOf cfg (pendingOf st allImages)).Sublist allImages :=
      (limitedOf_sublist cfg (pendingOf st allImages)).trans
        (List.filter_sublist allImages)
    have hcl : (limitedOf cfg (pendingOf st allImages)).count f ≤ allImages.count f :=
      hsub.count_le f
    have hnd1 : allImages.count f ≤ 1 := List.nodup_iff_count_le_one.mp hnd f
    have hp1 : 0 < (runItems cfg fault rand
        (limitedOf cfg (pendingOf st allImages)) st 0 0).state.processed.count f :=
      List.count_pos_iff.mpr hmp
    have hf1 : 0 < (runItems cfg fault rand
        (limitedOf cfg (pendingOf st allImages)) st 0 0).state.failed.count f :=
      List.count_pos_iff.mpr hmf
    omega

/-- Claim C2 counterexample: run 1 from the empty state exhausts `a.jpg`'s
single attempt, leaving `failed = [a.jpg]`; run 2 (failed items are
deliberately not filtered out) succeeds and appends `a.jpg` to `processed`
without removing it from `failed` — after the second run the identifier is
in BOTH sets, refuting "appears in at most one of the two sets". -/
theorem c2_counterexample :
    "a.jpg" ∈ (run ⟨1, 0, 0, none, false⟩ (fun _ _ => none) (fun _ _ => 0) ["a.jpg"]
        (run ⟨1, 0, 0, none, false⟩ (fun _ _ => some Step.ensureReady) (fun _ _ => 0)
          ["a.jpg"] ⟨[], []⟩).state).state.processed ∧
    "a.jpg" ∈ (run ⟨1, 0, 0, none, false⟩ (fun _ _ => none) (fun _ _ => 0) ["a.jpg"]
        (run ⟨1, 0, 0, none, false⟩ (fun _ _ => some Step.ensureReady) (fun _ _ => 0)
          ["a.jpg"] ⟨[], []⟩).state).state.failed := by
  decide

/-- Claim C2 witness: a fresh identifier (`b.jpg`, in neither set) cannot end
up in both sets within one run. -/
theorem c2_witness :
    ¬("b.jpg" ∈ (run ⟨1, 0, 0, none, false⟩ (fun _ _ => none) (fun _ _ => 0)
        ["a.jpg", "b.jpg"] ⟨["a.jpg"], []⟩).state.processed ∧
      "b.jpg" ∈ (run ⟨1, 0, 0, none, false⟩ (fun _ _ => none) (fun _ _ => 0)
        ["a.jpg", "b.jpg"] ⟨["a.jpg"], []⟩).state.failed) :=
  (c2_state_monotone_single_run_disjoint ⟨1, 0, 0, none, false⟩ (fun _ _ => none)
    (fun _ _ => 0) ["a.jpg", "b.jpg"] ⟨["a.jpg"], []⟩).2 "b.jpg"
    (by decide) (by decide) (by decide)

/-! ## Claim C5 -/

theorem itemLoop_no_authCheck (cfg : Config) (fault : ℕ → Option Step)
    (rand : ℕ → ℚ) (img : String) :
    ∀ (fuel attempt : ℕ) (st : ResumeState) (sc fc : ℕ),
      Ev.authCheck ∉ (itemLoop cfg fault rand img attempt fuel st sc fc).trace := by
  intro fuel
  induction fuel with
  | zero => intro attempt st sc fc; simp [itemLoop]
  | succ fuel ih =>
      intro attempt st sc fc
      have hdbg : Ev.authCheck
          ∉ (if cfg.debug then [Ev.debugCapture img (attempt + 1)] else []) := by
        split <;> simp
      cases hf : fault (attempt + 1) with
      | none => simp [itemLoop, hf, stageEvs]
      | some s =>
          by_cases hfu : fuel = 0
          · subst hfu
            simp only [itemLoop, hf]
            simp [stageEvs, hdbg]
            intro h
            exact absurd (List.mem_of_mem_take h) (by simp)
          · have hrec := ih (attempt + 1) st sc fc
            simp only [itemLoop, hf, hfu]
            simp [stageEvs, hdbg, hrec]
            intro h
            exact absurd (List.mem_of_mem_take h) (by simp)

theorem runItems_no_authCheck (cfg : Config) (F : String → ℕ → Option Step)
    (R : String → ℕ → ℚ) :
    ∀ (imgs : List String) (st : ResumeState) (sc fc : ℕ),
      Ev.authCheck ∉ (runItems cfg F R imgs st sc fc).trace := by
  intro imgs
  induction imgs with
  | nil => intro st sc fc; simp [runItems]
  | cons img rest ih =>
      intro st sc fc
      simp only [runItems]
      simp [itemLoop_no_authCheck cfg (F img) (R img) img cfg.retries 0 st sc fc,
        ih (itemLoop cfg (F img) (R img) img 0 cfg.retries st sc fc).state
          (itemLoop cfg (F img) (R img) img 0 cfg.retries st sc fc).succ
          (itemLoop cfg (F img) (R img) img 0 cfg.retries st sc fc).fail]

theorem run_authCheck_once (cfg : Config) (fault : String → ℕ → Option Step)
    (rand : String → ℕ → ℚ) (allImages : List String) (st : ResumeState) :
    (run cfg fault rand allImages st).trace.count Ev.authCheck ≤ 1 := by
  by_cases he : (limitedOf cfg (pendingOf st allImages)).isEmpty = true
  · unfold run; rw [if_pos he]; simp [List.count_cons]
  · unfold run; rw [if_neg he]
    have h0 : (runItems cfg fault rand (limitedOf cfg (pendingOf st allImages))
        st 0 0).trace.count Ev.authCheck = 0 :=
      List.count_eq_zero.mpr (runItems_no_authCheck cfg fault rand _ st 0 0)
    simp [List.count_cons, List.count_append, h0]

/-- Claim C5: a stage fault on attempt `a = attempt + 1` with `a` still below
`retries` logs the error and then sleeps exactly `30000 * 2 ^ (a - 1)` ms
(base backoff 30000 ms, attempt 1-indexed), after which the item's stage
sequence restarts from the beginning — the next attempt's first stage is
`ensure-ready`; moreover the authentication check (`ensureLoggedIn`) occurs
at most once per run, never inside the per-item loop. -/
theorem c5_backoff_restart (cfg : Config) (fault : ℕ → Option Step)
    (rand : ℕ → ℚ) (img : String) (attempt fuel : ℕ) (st : ResumeState)
    (sc fc : ℕ) (s : Step) (hfuel : fuel = cfg.retries - attempt)
    (hlt : attempt + 1 < cfg.retries) (hs : fault (attempt + 1) = some s) :
    (itemLoop cfg fault rand img attempt fuel st sc fc).trace
      = Ev.attemptStart img (attempt + 1)
          :: stageEvs img (attempt + 1) (some s)
          ++ Ev.logError img (attempt + 1) s
          :: (if cfg.debug then [Ev.debugCapture img (attempt + 1)] else [])
          ++ Ev.sleep ((30000 : ℚ) * 2 ^ (attempt + 1 - 1))
          :: (itemLoop cfg fault rand img (attempt + 1) (fuel - 1) st sc fc).trace ∧
    (itemLoop cfg fault rand img (attempt + 1) (fuel - 1) st sc fc).trace.take 2
      = [Ev.attemptStart img (attempt + 2),
         Ev.stage img (attempt + 2) Step.ensureReady] ∧
    (∀ (F : String → ℕ → Option Step) (R : String → ℕ → ℚ)
        (imgs : List String) (st' : ResumeState),
      (run cfg F R imgs st').trace.count Ev.authCheck ≤ 1) := by
  obtain ⟨f1, hf1⟩ : ∃ f1, fuel = f1 + 1 := ⟨fuel - 1, by omega⟩
  have hf1ne : ¬f1 = 0 := by omega
  subst hf1
  refine ⟨?_, ?_, fun F R imgs st' => run_authCheck_once cfg F R imgs st'⟩
  · simp only [itemLoop, hs, hf1ne, if_false, Nat.add_sub_cancel, if_neg hf1ne]
  · simp only [Nat.add_sub_cancel]
    obtain ⟨f2, hf2⟩ : ∃ f2, f1 = f2 + 1 := ⟨f1 - 1, by omega⟩
    subst hf2
    cases hv : fault (attempt + 2) with
    | none =>
        simp [itemLoop, hv, stageEvs, steps]
    | some s' =>
        by_cases hfu2 : f2 = 0 <;>
          simp [itemLoop, hv, hfu2, stageEvs, steps, List.take_succ_cons]

/-- Claim C5 witness: with `retries = 2`, a first-attempt fault sleeps
`30000 * 2^0` and the second attempt opens with the `ensure-ready` stage. -/
theorem c5_witness :
    (itemLoop ⟨2, 0, 0, none, false⟩ (fun _ => some Step.upload) (fun _ => 0) "a"
        1 1 ⟨[], []⟩ 0 0).trace.take 2
      = [Ev.attemptStart "a" 2, Ev.stage "a" 2 Step.ensureReady] :=
  (c5_backoff_restart ⟨2, 0, 0, none, false⟩ (fun _ => some Step.upload)
    (fun _ => 0) "a" 0 2 ⟨[], []⟩ 0 0 Step.upload rfl (by decide) rfl).2.1

/-! ## Claim C8 -/

theorem itemLoop_allFault (cfg : Config) (fault : ℕ → Option Step)
    (rand : ℕ → ℚ) (img : String) (hf : ∀ a, (fault a).isSome = true) :
    ∀ (fuel attempt : ℕ) (st : ResumeState) (sc fc : ℕ), 1 ≤ fuel →
      (itemLoop cfg fault rand img attempt fuel st sc fc).state
          = ⟨st.processed, st.failed ++ [img]⟩ ∧
      Ev.saveState ⟨st.processed, st.failed ++ [img]⟩
          ∈ (itemLoop cfg fault rand img attempt fuel st sc fc).trace ∧
      (itemLoop cfg fault rand img attempt fuel st sc fc).succ = sc ∧
      (itemLoop cfg fault rand img attempt fuel st sc fc).fail = fc + 1 := by
  intro fuel
  induction fuel with
  | zero => intro attempt st sc fc h; omega
  | succ fuel ih =>
      intro attempt st sc fc _
      obtain ⟨s, hs⟩ := Option.isSome_iff_exists.mp (hf (attempt + 1))
      by_cases hfu : fuel = 0
      · subst hfu
        refine ⟨by simp [itemLoop, hs], ?_, by simp [itemLoop, hs], by simp [itemLoop, hs]⟩
        simp [itemLoop, hs]
      · have hrec := ih (attempt + 1) st sc fc (by omega)
        refine ⟨by simp [itemLoop, hs, hfu, hrec.1], ?_,
          by simp [itemLoop, hs, hfu, hrec.2.2.1],
          by simp [itemLoop, hs, hfu, hrec.2.2.2]⟩
        simp only [itemLoop, hs, hfu, if_neg hfu]
        simp [hrec.2.1]

/-- Claim C8: an identifier present in neither set whose every stage attempt
faults ends the item loop with exactly one occurrence in `failed` and zero
in `processed`; the updated state is flushed (a `saveState` of exactly that
state appears in the item's trace); and the batch is not aborted — the batch
loop's trace for `f :: rest` is the item's trace followed by the remaining
items' trace, threaded through the updated state and counters. -/
theorem c8_exhausted_failure (cfg : Config) (F : String → ℕ → Option Step)
    (R : String → ℕ → ℚ) (f : String) (rest : List String) (st : ResumeState)
    (sc fc : ℕ) (hret : 1 ≤ cfg.retries)
    (hf : ∀ a, (F f a).isSome = true)
    (hp : f ∉ st.processed) (hfl : f ∉ st.failed) :
    (itemLoop cfg (F f) (R f) f 0 cfg.retries st sc fc).state.failed.count f = 1 ∧
    (itemLoop cfg (F f) (R f) f 0 cfg.retries st sc fc).state.processed.count f = 0 ∧
    Ev.saveState (itemLoop cfg (F f) (R f) f 0 cfg.retries st sc fc).state
      ∈ (itemLoop cfg (F f) (R f) f 0 cfg.retries st sc fc).trace ∧
    (itemLoop cfg (F f) (R f) f 0 cfg.retries st sc fc).fail = fc + 1 ∧
    runItems cfg F R (f :: rest) st sc fc
      = ⟨(itemLoop cfg (F f) (R f) f 0 cfg.retries st sc fc).trace
          ++ (runItems cfg F R rest
                (itemLoop cfg (F f) (R f) f 0 cfg.retries st sc fc).state
                (itemLoop cfg (F f) (R f) f 0 cfg.retries st sc fc).succ
                (itemLoop cfg (F f) (R f) f 0 cfg.retries st sc fc).fail).trace,
         (runItems cfg F R rest
            (itemLoop cfg (F f) (R f) f 0 cfg.retries st sc fc).state
            (itemLoop cfg (F f) (R f) f 0 cfg.retries st sc fc).succ
            (itemLoop cfg (F f) (R f) f 0 cfg.retries st sc fc).fail).state,
         (runItems cfg F R rest
            (itemLoop cfg (F f) (R f) f 0 cfg.retries st sc fc).state
            (itemLoop cfg (F f) (R f) f 0 cfg.retries st sc fc).succ
            (itemLoop cfg (F f) (R f) f 0 cfg.retries st sc fc).fail).succ,
         (runItems cfg F R rest
            (itemLoop cfg (F f) (R f) f 0 cfg.retries st sc fc).state
            (itemLoop cfg (F f) (R f) f 0 cfg.retries st sc fc).succ
            (itemLoop cfg (F f) (R f) f 0 cfg.retries st sc fc).fail).fail⟩ := by
  have hall := itemLoop_allFault cfg (F f) (R f) f hf cfg.retries 0 st sc fc hret
  refine ⟨?_, ?_, ?_, hall.2.2.2, ?_⟩
  · rw [hall.1]
    simp only [List.count_append, count_singleton_ite, if_pos rfl]
    rw [List.count_eq_zero.mpr hfl]
    simp
  · rw [hall.1]
    exact List.count_eq_zero.mpr hp
  · rw [hall.1]
    exact hall.2.1
  · rfl

/-- Claim C8 witness: a fresh `a.jpg` failing both of its 2 attempts ends in
`failed` exactly once, in `processed` zero times. -/
theorem c8_witness :
    (itemLoop ⟨2, 0, 0, none, false⟩ (fun _ => some Step.upload) (fun _ => 0)
        "a.jpg" 0 2 ⟨[], []⟩ 0 0).state.failed.count "a.jpg" = 1 ∧
    (itemLoop ⟨2, 0, 0, none, false⟩ (fun _ => some Step.upload) (fun _ => 0)
        "a.jpg" 0 2 ⟨[], []⟩ 0 0).state.processed.count "a.jpg" = 0 :=
  ⟨(c8_exhausted_failure ⟨2, 0, 0, none, false⟩ (fun _ _ => some Step.upload)
      (fun _ _ => 0) "a.jpg" [] ⟨[], []⟩ 0 0 (by decide) (fun _ => rfl)
      (by decide) (by decide)).1,
   (c8_exhausted_failure ⟨2, 0, 0, none, false⟩ (fun _ _ => some Step.upload)
      (fun _ _ => 0) "a.jpg" [] ⟨[], []⟩ 0 0 (by decide) (fun _ => rfl)
      (by decide) (by decide)).2.1⟩

/-! ## Claim C4 -/

theorem isVisible_squashFault (r : ProbeRes) : isVisible (squashFault r) = isVisible r := by
  cases r <;> rfl

theorem findIdx?_isVisible_map_squash (pass : List ProbeRes) :
    ∀ i, (pass.map squashFault).findIdx? (fun r => isVisible r) i
        = pass.findIdx? (fun r => isVisible r) i := by
  induction pass with
  | nil => intro i; rfl
  | cons r rest ih =>
      intro i
      simp only [List.map_cons, List.findIdx?_cons, isVisible_squashFault]
      split
      · rfl
      · exact ih (i + 1)

theorem firstVisibleIdx_map_squash (pass : List ProbeRes) :
    firstVisibleIdx (pass.map squashFault) = firstVisibleIdx pass :=
  findIdx?_isVisible_map_squash pass 0

theorem waitForAnyVisible_ok_spec (probes : ℕ → List ProbeRes) (timeoutMs : ℕ) :
    ∀ (d elapsed : ℕ), timeoutMs - elapsed ≤ d →
      ∀ i e, waitForAnyVisible probes timeoutMs elapsed = .ok (i, e) →
        elapsed ≤ e ∧ DEFAULT_POLL_MS ∣ (e - elapsed) ∧ e < timeoutMs ∧
        firstVisibleIdx (probes e) = some i ∧
        ∀ e', elapsed ≤ e' → DEFAULT_POLL_MS ∣ (e' - elapsed) → e' < e →
          firstVisibleIdx (probes e') = none := by
  intro d
  induction d with
  | zero =>
      intro elapsed hd i e hw
      unfold waitForAnyVisible at hw
      rw [if_neg (by omega)] at hw
      exact absurd hw (by simp)
  | succ d ih =>
      intro elapsed hd i e hw
      unfold waitForAnyVisible at hw
      by_cases hel : elapsed < timeoutMs
      · rw [if_pos hel] at hw
        cases hfv : firstVisibleIdx (probes elapsed) with
        | some j =>
            rw [hfv] at hw
            simp only [Except.ok.injEq, Prod.mk.injEq] at hw
            obtain ⟨hji, hee⟩ := hw
            subst hji
            subst hee
            exact ⟨le_refl _, by simp, hel, hfv, fun e' h1 h2 h3 => by omega⟩
        | none =>
            rw [hfv] at hw
            obtain ⟨ha, hb, hc, hdv, hall⟩ :=
              ih (elapsed + DEFAULT_POLL_MS) (by simp only [DEFAULT_POLL_MS] at hd ⊢; omega)
                i e hw
            have hpoll : DEFAULT_POLL_MS = 1000 := rfl
            refine ⟨by omega, ?_, hc, hdv, fun e' h1 h2 h3 => ?_⟩
            · rw [hpoll] at hb ⊢; omega
            · by_cases he' : e' = elapsed
              · subst he'; exact hfv
              · refine hall e' ?_ ?_ h3 <;> rw [hpoll] at h2 hb ⊢ <;> omega
      · rw [if_neg hel] at hw
        exact absurd hw (by simp)

theorem waitForAnyVisible_error_spec (probes : ℕ → List ProbeRes) (timeoutMs : ℕ) :
    ∀ (d elapsed : ℕ), timeoutMs - elapsed ≤ d →
      elapsed < timeoutMs + DEFAULT_POLL_MS →
      ∀ e, waitForAnyVisible probes timeoutMs elapsed = .error e →
        timeoutMs ≤ e ∧ e < timeoutMs + DEFAULT_POLL_MS := by
  intro d
  induction d with
  | zero =>
      intro elapsed hd hb e hw
      unfold waitForAnyVisible at hw
      rw [if_neg (by omega)] at hw
      simp only [Except.error.injEq] at hw
      omega
  | succ d ih =>
      intro elapsed hd hb e hw
      unfold waitForAnyVisible at hw
      by_cases hel : elapsed < timeoutMs
      · rw [if_pos hel] at hw
        cases hfv : firstVisibleIdx (probes elapsed) with
        | some j => rw [hfv] at hw; exact absurd hw (by simp)
        | none =>
            rw [hfv] at hw
            exact ih (elapsed + DEFAULT_POLL_MS)
              (by simp only [DEFAULT_POLL_MS] at hd ⊢; omega)
              (by simp only [DEFAULT_POLL_MS] at hb ⊢; omega) e hw
      · rw [if_neg hel] at hw
        simp only [Except.error.injEq] at hw
        omega

theorem waitForAnyVisible_squash (probes : ℕ → List ProbeRes) (timeoutMs : ℕ) :
    ∀ (d elapsed : ℕ), timeoutMs - elapsed ≤ d →
      waitForAnyVisible (fun t => (probes t).map squashFault) timeoutMs elapsed
        = waitForAnyVisible probes timeoutMs elapsed := by
  intro d
  induction d with
  | zero =>
      intro elapsed hd
      unfold waitForAnyVisible
      rw [if_neg (by omega), if_neg (by omega)]
  | succ d ih =>
      intro elapsed hd
      unfold waitForAnyVisible
      by_cases hel : elapsed < timeoutMs
      · rw [if_pos hel, if_pos hel, firstVisibleIdx_map_squash]
        cases hfv : firstVisibleIdx (probes elapsed) with
        | some j => rfl
        | none =>
            exact ih (elapsed + DEFAULT_POLL_MS)
              (by simp only [DEFAULT_POLL_MS] at hd ⊢; omega)
      · rw [if_neg hel, if_neg hel]

/-- Claim C4: `waitForAnyVisible` polls at elapsed times `0, 1000, 2000, …`
(the fixed `DEFAULT_POLL_MS = 1000` interval); a successful return happens on
a pass strictly before the timeout and yields the FIRST candidate, in
candidate-list order, visible on that pass, with no candidate visible on any
earlier pass; if no pass succeeds it throws with elapsed time `e` satisfying
`timeout ≤ e < timeout + pollInterval` — never a partial result; and a
candidate probe that faults is indistinguishable from one reporting hidden
(`isVisible` maps faults to `false`, so the fault never propagates). -/
theorem c4_awaitAny_poll_order_timeout (probes : ℕ → List ProbeRes) (timeoutMs : ℕ) :
    (∀ i e, waitForAnyVisible probes timeoutMs 0 = .ok (i, e) →
      DEFAULT_POLL_MS ∣ e ∧ e < timeoutMs ∧
      firstVisibleIdx (probes e) = some i ∧
      ∀ e', DEFAULT_POLL_MS ∣ e' → e' < e → firstVisibleIdx (probes e') = none) ∧
    (∀ e, waitForAnyVisible probes timeoutMs 0 = .error e →
      timeoutMs ≤ e ∧ e < timeoutMs + DEFAULT_POLL_MS) ∧
    waitForAnyVisible (fun t => (probes t).map squashFault) timeoutMs 0
      = waitForAnyVisible probes timeoutMs 0 ∧
    (∀ r, isVisible r = true ↔ r = ProbeRes.visible) := by
  refine ⟨?_, ?_, ?_, ?_⟩
  · intro i e hw
    obtain ⟨_, hb, hc, hdv, hall⟩ :=
      waitForAnyVisible_ok_spec probes timeoutMs timeoutMs 0 (by omega) i e hw
    rw [Nat.sub_zero] at hb
    refine ⟨hb, hc, hdv, fun e' h1 h2 => ?_⟩
    exact hall e' (Nat.zero_le e') (by rwa [Nat.sub_zero]) h2
  · intro e hw
    exact waitForAnyVisible_error_spec probes timeoutMs timeoutMs 0 (by omega)
      (by simp [DEFAULT_POLL_MS]) e hw
  · exact waitForAnyVisible_squash probes timeoutMs timeoutMs 0 (by omega)
  · intro r; cases r <;> simp [isVisible]

/-- Claim C4 witness: with a single always-faulting candidate and timeout 0,
the wait times out at elapsed time 0, within `[timeout, timeout + poll)`. -/
theorem c4_witness : (0 : ℕ) ≤ 0 ∧ (0 : ℕ) < 0 + DEFAULT_POLL_MS :=
  (c4_awaitAny_poll_order_timeout (fun _ => [ProbeRes.fault]) 0).2.1 0
    (by unfold waitForAnyVisible; simp)

end ImageResolution
